import Mathlib

/-!
Verification of the bulk product-ingestion pipeline of `ly-merch`.

The definitions below are a shallow embedding of the two upload-flow
implementations of the repository:

* `frontend/src/components/ProductCSVUpload.tsx` — field normalizers
  (`normalizeGender`, `normalizeAvailabilityStatus`, `normalizePrice`,
  `normalizeProductRow`), the row validator (`validateProductRow`), the
  valid/invalid partition of the parse-completion callback, and the count
  reporting of `handleBulkUpload`.
* `frontend/src/components/ProductBulkUpload.tsx` — the batch scheduler and
  result aggregator (`uploadProductsBatch`), including batch slicing, the
  per-batch progress publications, transport failure recovery, inter-batch
  pacing, and the terminal status message.

JavaScript strings are modelled by Lean `String` (ASCII-faithfully);
JavaScript numbers by the inductive `JSNum` over `ℚ` (so that `parseFloat`
producing `NaN`/`Infinity`, and the `Number.isFinite` tests of the source,
are represented exactly).  Missing/`undefined` values are `Option`.
-/

namespace LyMerch

/-! ## JavaScript string primitives -/

/-- Characters treated as whitespace by the source's `trim()` and the
regular expression `\s` (ASCII fragment). -/
def isJsWhitespace (c : Char) : Bool :=
  c = ' ' ∨ c = '\t' ∨ c = '\n' ∨ c = '\r' ∨ c = '\x0b' ∨ c = '\x0c'

/-- JavaScript `String.prototype.trim()`. -/
def jsTrim (s : String) : String :=
  ⟨((s.data.dropWhile isJsWhitespace).reverse.dropWhile isJsWhitespace).reverse⟩

/-- JavaScript `String.prototype.toLowerCase()` (ASCII fragment). -/
def lowerStr (s : String) : String :=
  ⟨s.data.map Char.toLower⟩

/-- Replace every maximal run of whitespace by a single underscore, as the
source's `replace(/\s+/g, '_')` does: a whitespace character is dropped
while the run continues and becomes `'_'` at the run's end. -/
def snakeChars : List Char → List Char
  | [] => []
  | [c] => if isJsWhitespace c then ['_'] else [c]
  | c :: d :: cs =>
      if isJsWhitespace c then
        if isJsWhitespace d then snakeChars (d :: cs)
        else '_' :: snakeChars (d :: cs)
      else c :: snakeChars (d :: cs)

/-- `replace(/\s+/g, '_')` on strings. -/
def snakeCase (s : String) : String := ⟨snakeChars s.data⟩

/-- The characters removed by the source's `replace(/[$£€¥,]/g, '')`. -/
def isCurrencyChar (c : Char) : Bool :=
  c = '$' ∨ c = '£' ∨ c = '€' ∨ c = '¥' ∨ c = ','

/-- `String(value).replace(/[$£€¥,]/g, '')`. -/
def stripCurrency (s : String) : String :=
  ⟨s.data.filter (fun c => ¬ isCurrencyChar c)⟩

/-! ## JavaScript numbers and `parseFloat` -/

/-- A JavaScript number as far as the pipeline observes it: `NaN`, the two
infinities, or a finite value (modelled as a rational, which is exact for
every decimal literal the parser can produce). -/
inductive JSNum where
  | nan : JSNum
  | inf : JSNum
  | neginf : JSNum
  | fin (q : ℚ) : JSNum
deriving DecidableEq, Repr

/-- `Number.isFinite`. -/
def JSNum.isFinite : JSNum → Bool
  | .fin _ => true
  | _ => false

/-- The JavaScript comparison `x < 0` (false on `NaN`). -/
def JSNum.ltZero : JSNum → Bool
  | .fin q => decide (q < 0)
  | .neginf => true
  | _ => false

/-- The JavaScript comparison `x >= 0` (false on `NaN`). -/
def JSNum.geZero : JSNum → Bool
  | .fin q => decide (0 ≤ q)
  | .inf => true
  | _ => false

/-- Numeric value of a digit character. -/
def digitVal (c : Char) : Nat := c.toNat - '0'.toNat

/-- Value of a digit string read in base 10. -/
def digitsVal (cs : List Char) : Nat :=
  cs.foldl (fun a c => a * 10 + digitVal c) 0

/-- Exponent digits after an optional sign; an empty digit run means the
exponent part is not consumed, i.e. exponent `0`. -/
def parseSignedExp (cs : List Char) : Int :=
  match cs with
  | '+' :: r => (digitsVal (r.takeWhile Char.isDigit) : Int)
  | '-' :: r => - (digitsVal (r.takeWhile Char.isDigit) : Int)
  | r => (digitsVal (r.takeWhile Char.isDigit) : Int)

/-- The optional `e`/`E` exponent part of a decimal literal. -/
def parseExponentPart (cs : List Char) : Int :=
  match cs with
  | 'e' :: r => parseSignedExp r
  | 'E' :: r => parseSignedExp r
  | _ => 0

/-- Longest decimal-literal prefix `digits [. digits] [exponent]`, as a
pair of mantissa digits value and net power-of-ten exponent; `none` when
not even one digit is present (JavaScript then yields `NaN`). -/
def parseDecimal (cs : List Char) : Option (Nat × Int) :=
  let ip := cs.takeWhile Char.isDigit
  let rest1 := cs.dropWhile Char.isDigit
  let fp := match rest1 with
    | '.' :: r => r.takeWhile Char.isDigit
    | _ => []
  let rest2 := match rest1 with
    | '.' :: r => r.dropWhile Char.isDigit
    | _ => rest1
  if ip.isEmpty && fp.isEmpty then none
  else
    some (digitsVal ip * 10 ^ fp.length + digitsVal fp,
      parseExponentPart rest2 - (fp.length : Int))

/-- The exact rational value of the signed scientific pair
`(neg, mant) · 10 ^ exp`.  (The pipeline stores and compares these values
exactly; the rounding of an IEEE double is below the granularity any claim
observes.) -/
def sciToRat (neg : Bool) (mant : Nat) (exp : Int) : ℚ :=
  let sn : Int := if neg then -(mant : Int) else (mant : Int)
  if 0 ≤ exp then mkRat (sn * (10 ^ exp.toNat : Nat)) 1
  else mkRat sn (10 ^ (-exp).toNat)

/-- Unsigned part of `parseFloat`: the `Infinity` literal or a decimal
literal, signed according to the consumed sign. -/
def parseFloatUnsigned (cs : List Char) (neg : Bool) : JSNum :=
  if cs.take 8 = "Infinity".data then (if neg then JSNum.neginf else JSNum.inf)
  else
    match parseDecimal cs with
    | none => JSNum.nan
    | some me => JSNum.fin (sciToRat neg me.1 me.2)

/-- JavaScript `parseFloat`: skip leading whitespace, read an optional
sign, then the longest numeric-literal prefix; `NaN` when none exists. -/
def parseFloat (s : String) : JSNum :=
  match s.data.dropWhile isJsWhitespace with
  | '+' :: r => parseFloatUnsigned r false
  | '-' :: r => parseFloatUnsigned r true
  | r => parseFloatUnsigned r false

/-! ## Field normalizers (`ProductCSVUpload.tsx`, with the
`ProductBulkUpload.tsx` variant of availability alongside).

An input cell is `Option String`: `none` is a missing (`undefined`) field;
the JavaScript falsiness test `!value` on a present string is the test for
`""`.  `String(value)` conversion at the use sites of the source is the
identity under this modelling. -/

/-- The four canonical availability statuses. -/
def validStatuses : List String := ["in_stock", "out_of_stock", "discontinued", "pre_order"]

/-- The three canonical genders. -/
def validGenders : List String := ["male", "female", "unisex"]

/-- `normalizeGender` of `ProductCSVUpload.tsx` (identical in
`ProductBulkUpload.tsx`). -/
def normalizeGender (value : Option String) : String :=
  match value with
  | none => "unisex"
  | some s =>
      if s = "" then "unisex"
      else
        let str := lowerStr (jsTrim s)
        if str ∈ ["m", "male", "man", "men"] then "male"
        else if str ∈ ["f", "female", "woman", "women"] then "female"
        else "unisex"

/-- `normalizeAvailabilityStatus` of `ProductCSVUpload.tsx`. -/
def normalizeAvailabilityStatus (value : Option String) : String :=
  match value with
  | none => "in_stock"
  | some s =>
      if s = "" then "in_stock"
      else
        let low := lowerStr (jsTrim s)
        let str := snakeCase low
        if str ∈ validStatuses then str
        else if low ∈ ["available", "in stock", "available"] then "in_stock"
        else if low ∈ ["unavailable", "out of stock", "sold out"] then "out_of_stock"
        else if low ∈ ["preorder", "pre order", "coming soon"] then "pre_order"
        else "in_stock"

/-- `normalizeAvailability` of `ProductBulkUpload.tsx` (differs from the
`ProductCSVUpload.tsx` variant only in its `in_stock` alias list). -/
def normalizeAvailabilityBulk (value : Option String) : String :=
  match value with
  | none => "in_stock"
  | some s =>
      if s = "" then "in_stock"
      else
        let low := lowerStr (jsTrim s)
        let str := snakeCase low
        if str ∈ validStatuses then str
        else if low ∈ ["available", "in stock", "stocked"] then "in_stock"
        else if low ∈ ["unavailable", "out of stock", "sold out"] then "out_of_stock"
        else if low ∈ ["preorder", "pre order", "coming soon"] then "pre_order"
        else "in_stock"

/-- Availability normalization as the specification words it: lowercase and
snake_case, keep a canonical value, otherwise map the known aliases
(available, in stock → in_stock; unavailable, out of stock, sold out →
out_of_stock; preorder, coming soon → pre_order), and default everything
else — including a missing or empty value — to `in_stock`.  Used only to
compare the two source normalizers against the specification. -/
def availabilitySpecModel (value : Option String) : String :=
  match value with
  | none => "in_stock"
  | some s =>
      if s = "" then "in_stock"
      else
        let low := lowerStr (jsTrim s)
        let str := snakeCase low
        if str ∈ validStatuses then str
        else if low ∈ ["available", "in stock"] then "in_stock"
        else if low ∈ ["unavailable", "out of stock", "sold out"] then "out_of_stock"
        else if low ∈ ["preorder", "coming soon"] then "pre_order"
        else "in_stock"

/-- `normalizePrice` (identical in both source files): reject
missing/empty, strip currency symbols and separators, trim, `parseFloat`,
keep the parsed number exactly when it is finite and non-negative. -/
def normalizePrice (value : Option String) : Option JSNum :=
  match value with
  | none => none
  | some s =>
      if s = "" then none
      else
        let price := parseFloat (jsTrim (stripCurrency s))
        if price.isFinite && price.geZero then some price else none

/-! ## Canonical records, raw rows, validation
(`ProductCSVUpload.tsx`). -/

/-- The canonical product record restricted to the fields any claim (and
the validator) observes.  The remaining fields of the source interface
(`product_id`, `brand`, `currency`, `color`, `size`, `material`, `season`,
`description`, `image_url`, `product_url`, `trend_id`) are pass-through
strings or cosmetic defaults no claim mentions, and are omitted. -/
structure ProductRow where
  name : String
  product_type : String
  price : Option JSNum
  gender : String
  availability_status : String
deriving DecidableEq, Repr

/-- A raw CSV row after header normalization: an association list from
header names to cell strings.  A key that is absent is an `undefined`
property of the parsed record. -/
def RawRow : Type := List (String × String)

/-- Property access `r.k` on a raw row. -/
def getField (r : RawRow) (k : String) : Option String :=
  (r.find? (fun p => p.1 = k)).map (fun p => p.2)

/-- The `??` chain `r.k₁ ?? r.k₂ ?? …`: the first present property wins,
even when its value is the empty string. -/
def firstField (r : RawRow) : List String → Option String
  | [] => none
  | k :: ks =>
      match getField r k with
      | some v => some v
      | none => firstField r ks

/-- `normalizeProductRow` of `ProductCSVUpload.tsx`, restricted to the
fields of `ProductRow`. -/
def normalizeProductRow (r : RawRow) : ProductRow :=
  { name := jsTrim ((firstField r ["name", "product_name", "productName", "title"]).getD "")
    product_type :=
      lowerStr (jsTrim ((firstField r ["product_type", "productType", "type", "category"]).getD ""))
    price := normalizePrice (firstField r ["price", "cost", "amount"])
    gender := normalizeGender (firstField r ["gender", "sex", "target"])
    availability_status :=
      normalizeAvailabilityStatus (firstField r ["availability_status", "availability", "status", "stock"]) }

/-- The result record of `validateProductRow`. -/
structure ValidationResult where
  isValid : Bool
  errors : List String
deriving DecidableEq, Repr

/-- The five violation messages of `validateProductRow`. -/
def msgName : String := "Product name is required"

def msgType : String := "Product type is required"

def msgPrice : String := "Price must be a valid positive number"

def msgGender : String := "Gender must be male, female, or unisex"

def msgAvail : String :=
  "Availability status must be one of: in_stock, out_of_stock, discontinued, pre_order"

/-- The `errors` list built by `validateProductRow` of
`ProductCSVUpload.tsx`: the five rule checks push their messages into the
list in program order. -/
def validationErrorsOf (row : ProductRow) : List String :=
  (if row.name = "" then [msgName] else [])
  ++ (if row.product_type = "" then [msgType] else [])
  ++ (match row.price with
      | some p => if p.ltZero || !p.isFinite then [msgPrice] else []
      | none => [])
  ++ (if row.gender ∈ validGenders then [] else [msgGender])
  ++ (if row.availability_status ∈ validStatuses then [] else [msgAvail])

/-- `validateProductRow` of `ProductCSVUpload.tsx`: the row is valid when
its error list stays empty. -/
def validateProductRow (row : ProductRow) : ValidationResult :=
  { isValid := (validationErrorsOf row).isEmpty, errors := validationErrorsOf row }

/-- The valid/invalid partition of the parse-completion callback of
`ProductCSVUpload.tsx`: valid rows are collected in order, invalid rows are
reported as `(index + 1, violations)`.  `i` is the 0-based index of the
first row of the list. -/
def partitionRows (i : Nat) : List ProductRow → List ProductRow × List (Nat × List String)
  | [] => ([], [])
  | row :: rest =>
      let v := validateProductRow row
      let r := partitionRows (i + 1) rest
      if v.isValid then (row :: r.1, r.2) else (r.1, (i + 1, v.errors) :: r.2)

/-- The count surfaced by `handleBulkUpload` of `ProductCSVUpload.tsx`:
`result.uploaded_count || parsedRows.length` — the reported count only when
it is present and non-zero, the parsed-row count otherwise. -/
def handleBulkUploadReportedCount (reported : Option Nat) (parsedRowCount : Nat) : Nat :=
  match reported with
  | some c => if c = 0 then parsedRowCount else c
  | none => parsedRowCount

/-! ## Batch scheduler, transport recovery and aggregation
(`uploadProductsBatch` of `ProductBulkUpload.tsx`).

The network is modelled by an oracle list: one `BatchResponse` per batch,
in dispatch order.  The loop body's observable actions are recorded as a
trace of `RunEvent`s: the `setProcessingStats` publication at the start of
each iteration, the transport dispatch, and the pacing wait. -/

/-- `Math.ceil(n / b)` on naturals, for `b ≥ 1`. -/
def ceilDiv (n b : Nat) : Nat := (n + b - 1) / b

/-- JavaScript `Array.prototype.slice(s, e)` (for `s ≤ e`): the elements
at indices `s, …, e-1`. -/
def jsSlice (l : List α) (s e : Nat) : List α := (l.take e).drop s

/-- The batches of the upload loop: batch `i` is
`products.slice(i*B, min(i*B + B, N))`, for `i = 0, …, ceil(N/B) - 1`. -/
def batchesOf (products : List α) (B : Nat) : List (List α) :=
  (List.range (ceilDiv products.length B)).map
    (fun i => jsSlice products (i * B) (min (i * B + B) products.length))

/-- A successful bulk-endpoint response body (missing count fields are
read as `0` by the source's `|| 0`; a missing `errors` is the empty
list, which the source's guarded push treats identically). -/
structure UploadResult where
  uploaded_count : Nat
  skipped_count : Nat
  error_count : Nat
  errors : List String
deriving DecidableEq, Repr

/-- Outcome of one transport call: a 2xx response with a parsed body, or
the failure path (a non-ok response's thrown detail message or a network
exception message — both land in the same `catch`). -/
inductive BatchResponse where
  | success (r : UploadResult) : BatchResponse
  | failure (msg : String) : BatchResponse
deriving DecidableEq, Repr

/-- Whether a transport outcome took the success path. -/
def BatchResponse.succeeded : BatchResponse → Bool
  | .success _ => true
  | .failure _ => false

/-- The running totals of the upload loop. -/
structure RunState where
  totalUploaded : Nat
  totalSkipped : Nat
  totalErrors : Nat
  allErrors : List String
deriving DecidableEq, Repr

/-- Totals at the start of a run. -/
def initState : RunState := ⟨0, 0, 0, []⟩

/-- The progress record published through `setProcessingStats`. -/
structure ProcessingStats where
  total : Nat
  processed : Nat
  successful : Nat
  errors : Nat
  current_batch : Nat
  total_batches : Nat
deriving DecidableEq, Repr

/-- Observable actions of the upload loop, in program order. -/
inductive RunEvent where
  | publish (stats : ProcessingStats) : RunEvent
  | dispatch (batchIdx : Nat) (batch : List ProductRow) : RunEvent
  | wait (ms : Nat) : RunEvent
deriving DecidableEq, Repr

/-- The aggregate message pushed when batch `i` (0-based) fails. -/
def failureMessage (i : Nat) (msg : String) : String :=
  "Batch " ++ toString (i + 1) ++ " failed: " ++ msg

/-- One iteration's effect on the running totals: a successful response's
counts are added and its error messages appended; a failure counts the
whole batch as errors and appends the one aggregate message. -/
def processBatch (i : Nat) (st : RunState) (batch : List ProductRow)
    (resp : BatchResponse) : RunState :=
  match resp with
  | .success r =>
      { totalUploaded := st.totalUploaded + r.uploaded_count
        totalSkipped := st.totalSkipped + r.skipped_count
        totalErrors := st.totalErrors + r.error_count
        allErrors := st.allErrors ++ r.errors }
  | .failure msg =>
      { st with
        totalErrors := st.totalErrors + batch.length
        allErrors := st.allErrors ++ [failureMessage i msg] }

/-- The stats published at the start of iteration `i`:
`processed = startIndex = i * batchSize`. -/
def preBatchStats (N B tb i : Nat) (st : RunState) : ProcessingStats :=
  { total := N
    processed := i * B
    successful := st.totalUploaded
    errors := st.totalErrors
    current_batch := i + 1
    total_batches := tb }

/-- The pacing wait: emitted on the success path only (the `setTimeout`
sits inside the `try`, after the response is consumed), and only when the
batch is not the last. -/
def waitEvents (tb i : Nat) (resp : BatchResponse) : List RunEvent :=
  match resp with
  | .success _ => if i < tb - 1 then [RunEvent.wait 500] else []
  | .failure _ => []

/-- The `for` loop of `uploadProductsBatch`, from iteration `i` with
running totals `st`, over the remaining (batch, response) pairs. -/
def runLoop (N B tb : Nat) (i : Nat) (st : RunState) :
    List (List ProductRow × BatchResponse) → RunState × List RunEvent
  | [] => (st, [])
  | (batch, resp) :: rest =>
      let st2 := processBatch i st batch resp
      let r := runLoop N B tb (i + 1) st2 rest
      (r.1,
        (RunEvent.publish (preBatchStats N B tb i st)
          :: RunEvent.dispatch i batch
          :: waitEvents tb i resp)
        ++ r.2)

/-- The terminal stats published after the loop:
`processed = products.length`. -/
def finalStats (N tb : Nat) (st : RunState) : ProcessingStats :=
  { total := N
    processed := N
    successful := st.totalUploaded
    errors := st.totalErrors
    current_batch := tb
    total_batches := tb }

/-- The terminal status message. -/
def finalStatusMessage (st : RunState) : String :=
  if st.totalUploaded > 0 then
    "Upload complete! Successfully uploaded " ++ toString st.totalUploaded ++ " products"
  else
    "Upload finished with issues. " ++ toString st.totalErrors ++ " errors occurred."

/-- `uploadProductsBatch`: split into batches, drive them sequentially
against the response oracle, publish the terminal stats, and compute the
status message.  Returns (final totals, event trace, terminal stats,
status message). -/
def uploadProductsBatch (products : List ProductRow) (B : Nat)
    (resps : List BatchResponse) :
    RunState × List RunEvent × ProcessingStats × String :=
  let N := products.length
  let tb := ceilDiv N B
  let r := runLoop N B tb 0 initState ((batchesOf products B).zip resps)
  (r.1, r.2 ++ [RunEvent.publish (finalStats N tb r.1)], finalStats N tb r.1,
    finalStatusMessage r.1)

/-- The default batch size of `uploadProductsBatch`. -/
def defaultBatchSize : Nat := 10

/-! ### Derived per-batch views used to state the aggregation claims -/

/-- What one batch adds to the error total: the endpoint's reported
`error_count` on success, the whole batch size on failure. -/
def errorDelta : List ProductRow × BatchResponse → Nat
  | (_, .success r) => r.error_count
  | (batch, .failure _) => batch.length

/-- What one batch adds to the uploaded total. -/
def uploadedDelta : List ProductRow × BatchResponse → Nat
  | (_, .success r) => r.uploaded_count
  | (_, .failure _) => 0

/-- What one batch adds to the skipped total. -/
def skippedDelta : List ProductRow × BatchResponse → Nat
  | (_, .success r) => r.skipped_count
  | (_, .failure _) => 0

/-- The messages one batch appends: the endpoint's list verbatim on
success, exactly one aggregate message on failure (`i` is the 0-based
batch index). -/
def batchMessages (i : Nat) : List ProductRow × BatchResponse → List String
  | (_, .success r) => r.errors
  | (_, .failure msg) => [failureMessage i msg]

/-- The dispatch events of a trace, as (batch index, batch) pairs. -/
def dispatches (evs : List RunEvent) : List (Nat × List ProductRow) :=
  evs.filterMap fun e =>
    match e with
    | .dispatch i b => some (i, b)
    | _ => none

/-- The published progress records of a trace, in publication order. -/
def publishedStats (evs : List RunEvent) : List ProcessingStats :=
  evs.filterMap fun e =>
    match e with
    | .publish s => some s
    | _ => none

/-! ## Helper lemmas about the batch partition -/

theorem ceilDiv_zero_left (B : Nat) : ceilDiv 0 B = 0 := by
  unfold ceilDiv
  rcases Nat.eq_zero_or_pos B with h | h
  · simp [h]
  · exact Nat.div_eq_of_lt (by omega)

theorem ceilDiv_step {n B : Nat} (hB : 0 < B) (hn : 0 < n) :
    ceilDiv n B = ceilDiv (n - B) B + 1 := by
  unfold ceilDiv
  rcases le_or_lt n B with h | h
  · have h1 : n + B - 1 = (n - 1) + B := by omega
    have h2 : n - B = 0 := by omega
    rw [h1, h2, Nat.add_div_right _ hB]
    have : (n - 1) / B = 0 := Nat.div_eq_of_lt (by omega)
    have hb : (B - 1) / B = 0 := Nat.div_eq_of_lt (by omega)
    simp [this, hb]
  · have h1 : n + B - 1 = (n - 1) + B := by omega
    have h2 : n - B + B - 1 = (n - B - 1) + B := by omega
    have h3 : n - 1 = (n - B - 1) + B := by omega
    rw [h1, h2, Nat.add_div_right _ hB, Nat.add_div_right _ hB, h3,
      Nat.add_div_right _ hB]

theorem jsSlice_drop_take (l : List α) (B s : Nat) :
    jsSlice l s (min (s + B) l.length) = (l.drop s).take B := by
  unfold jsSlice
  rw [List.drop_take]
  have h1 : min (s + B) l.length - s = min B (l.length - s) := by omega
  rw [h1]
  rw [List.take_eq_take]
  simp [List.length_drop]

theorem batchesOf_dropTake (l : List α) (B : Nat) :
    batchesOf l B =
      (List.range (ceilDiv l.length B)).map (fun i => (l.drop (i * B)).take B) := by
  unfold batchesOf
  exact List.map_congr_left fun i _ => jsSlice_drop_take l B (i * B)

theorem batchesOf_nil (B : Nat) : batchesOf ([] : List α) B = [] := by
  rw [batchesOf_dropTake]
  simp [ceilDiv_zero_left]

theorem batchesOf_cons {l : List α} {B : Nat} (hB : 0 < B) (hl : l ≠ []) :
    batchesOf l B = l.take B :: batchesOf (l.drop B) B := by
  have hn : 0 < l.length := List.length_pos.mpr hl
  rw [batchesOf_dropTake, batchesOf_dropTake, List.length_drop,
    ceilDiv_step hB hn, List.range_succ_eq_map, List.map_cons, List.map_map]
  congr 1
  · simp
  · apply List.map_congr_left
    intro i _
    simp only [Function.comp]
    rw [List.drop_drop]
    congr 2
    rw [Nat.succ_mul, Nat.mul_comm i B]
    omega

theorem batchesOf_join {B : Nat} (hB : 0 < B) :
    ∀ n (l : List α), l.length ≤ n → (batchesOf l B).flatten = l := by
  intro n
  induction n with
  | zero =>
      intro l hl
      have : l = [] := List.eq_nil_of_length_eq_zero (Nat.le_zero.mp hl)
      subst this
      simp [batchesOf_nil]
  | succ n ih =>
      intro l hl
      rcases eq_or_ne l [] with h | h
      · subst h; simp [batchesOf_nil]
      · rw [batchesOf_cons hB h]
        have hlen : (l.drop B).length ≤ n := by
          rw [List.length_drop]
          have : 0 < l.length := List.length_pos.mpr h
          omega
        simp only [List.flatten_cons, ih (l.drop B) hlen]
        exact List.take_append_drop B l

theorem batchesOf_length (l : List α) (B : Nat) :
    (batchesOf l B).length = ceilDiv l.length B := by
  unfold batchesOf
  simp

theorem batchesOf_mem_length_le {l : List α} {B : Nat} {b : List α}
    (hb : b ∈ batchesOf l B) : b.length ≤ B := by
  rw [batchesOf_dropTake] at hb
  obtain ⟨i, _, rfl⟩ := List.mem_map.mp hb
  simp

theorem batchesOf_sum_lengths {B : Nat} (hB : 0 < B) (l : List α) :
    ((batchesOf l B).map List.length).sum = l.length := by
  have h := congrArg List.length (batchesOf_join hB l.length l le_rfl)
  rwa [List.length_flatten] at h

theorem batchesOf_take_sum {B : Nat} (hB : 0 < B) :
    ∀ n (l : List α) (k : Nat), l.length ≤ n →
      (((batchesOf l B).take k).map List.length).sum = min (k * B) l.length := by
  intro n
  induction n with
  | zero =>
      intro l k hl
      have : l = [] := List.eq_nil_of_length_eq_zero (Nat.le_zero.mp hl)
      subst this
      simp [batchesOf_nil]
  | succ n ih =>
      intro l k hl
      rcases eq_or_ne l [] with h | h
      · subst h; simp [batchesOf_nil]
      · rw [batchesOf_cons hB h]
        match k with
        | 0 => simp
        | k + 1 =>
            have hlen : (l.drop B).length ≤ n := by
              rw [List.length_drop]
              have : 0 < l.length := List.length_pos.mpr h
              omega
            rw [List.take_succ_cons, List.map_cons, List.sum_cons, ih (l.drop B) k hlen]
            rw [List.length_take, List.length_drop]
            have : 0 < l.length := List.length_pos.mpr h
            rw [Nat.succ_mul]
            omega

/-! ## Helper lemmas about the upload loop -/

/-- The running totals after the first `j` iterations. -/
def stateAt (N B tb i : Nat) (st : RunState)
    (pairs : List (List ProductRow × BatchResponse)) (j : Nat) : RunState :=
  (runLoop N B tb i st (pairs.take j)).1

/-- The events of iteration `j` of the loop, as they appear in the trace. -/
def blockEvents (N B tb i : Nat) (st : RunState)
    (pairs : List (List ProductRow × BatchResponse)) (j : Nat) : List RunEvent :=
  let p := pairs.getD j ([], BatchResponse.failure "")
  RunEvent.publish (preBatchStats N B tb (i + j) (stateAt N B tb i st pairs j))
    :: RunEvent.dispatch (i + j) p.1
    :: waitEvents tb (i + j) p.2

theorem runLoop_state_totals (N B tb : Nat) :
    ∀ (pairs : List (List ProductRow × BatchResponse)) (i : Nat) (st : RunState),
      (runLoop N B tb i st pairs).1.totalUploaded
          = st.totalUploaded + (pairs.map uploadedDelta).sum
      ∧ (runLoop N B tb i st pairs).1.totalSkipped
          = st.totalSkipped + (pairs.map skippedDelta).sum
      ∧ (runLoop N B tb i st pairs).1.totalErrors
          = st.totalErrors + (pairs.map errorDelta).sum := by
  intro pairs
  induction pairs with
  | nil => intro i st; simp [runLoop]
  | cons p rest ih =>
      intro i st
      obtain ⟨b, resp⟩ := p
      obtain ⟨h1, h2, h3⟩ := ih (i + 1) (processBatch i st b resp)
      refine ⟨?_, ?_, ?_⟩ <;>
        simp only [runLoop, h1, h2, h3, List.map_cons, List.sum_cons] <;>
        cases resp <;>
        simp [processBatch, uploadedDelta, skippedDelta, errorDelta] <;>
        omega

theorem runLoop_state_allErrors (N B tb : Nat) :
    ∀ (pairs : List (List ProductRow × BatchResponse)) (i : Nat) (st : RunState),
      (runLoop N B tb i st pairs).1.allErrors
        = st.allErrors
          ++ ((pairs.enumFrom i).map (fun p => batchMessages p.1 p.2)).flatten := by
  intro pairs
  induction pairs with
  | nil => intro i st; simp [runLoop]
  | cons p rest ih =>
      intro i st
      obtain ⟨b, resp⟩ := p
      rw [runLoop]
      simp only []
      rw [ih (i + 1) (processBatch i st b resp)]
      cases resp <;>
        simp [processBatch, batchMessages, List.enumFrom]

theorem runLoop_dispatches (N B tb : Nat) :
    ∀ (pairs : List (List ProductRow × BatchResponse)) (i : Nat) (st : RunState),
      dispatches (runLoop N B tb i st pairs).2
        = (pairs.enumFrom i).map (fun p => (p.1, p.2.1)) := by
  intro pairs
  induction pairs with
  | nil => intro i st; simp [runLoop, dispatches]
  | cons p rest ih =>
      intro i st
      obtain ⟨b, resp⟩ := p
      rw [runLoop]
      simp only [dispatches] at ih ⊢
      rw [List.filterMap_append]
      cases resp with
      | success r =>
          simp only [waitEvents]
          split <;> simp [ih (i + 1), List.enumFrom]
      | failure m => simp [waitEvents, ih (i + 1), List.enumFrom]

theorem runLoop_publishes (N B tb : Nat) :
    ∀ (pairs : List (List ProductRow × BatchResponse)) (i : Nat) (st : RunState),
      publishedStats (runLoop N B tb i st pairs).2
        = (List.range pairs.length).map
            (fun j => preBatchStats N B tb (i + j) (stateAt N B tb i st pairs j)) := by
  intro pairs
  induction pairs with
  | nil => intro i st; simp [runLoop, publishedStats]
  | cons p rest ih =>
      intro i st
      obtain ⟨b, resp⟩ := p
      rw [runLoop]
      simp only [publishedStats] at ih ⊢
      rw [List.filterMap_append]
      have hrest := ih (i + 1) (processBatch i st b resp)
      simp only [List.length_cons]
      rw [List.range_succ_eq_map, List.map_cons, List.map_map]
      have hhead :
          List.filterMap
            (fun e => match e with | RunEvent.publish s => some s | _ => none)
            (RunEvent.publish (preBatchStats N B tb i st)
              :: RunEvent.dispatch i b :: waitEvents tb i resp)
          = [preBatchStats N B tb i st] := by
        cases resp with
        | success r =>
            simp only [waitEvents]
            split <;> simp
        | failure m => simp [waitEvents]
      rw [hhead, hrest]
      simp only [List.singleton_append, List.cons.injEq]
      constructor
      · simp [stateAt, runLoop]
      · symm
        apply List.map_congr_left
        intro j _
        have h1 : i + 1 + j = i + (j + 1) := by omega
        simp only [Function.comp, stateAt, List.take_succ_cons, runLoop, h1]

theorem runLoop_events (N B tb : Nat) :
    ∀ (pairs : List (List ProductRow × BatchResponse)) (i : Nat) (st : RunState),
      (runLoop N B tb i st pairs).2
        = ((List.range pairs.length).map (blockEvents N B tb i st pairs)).flatten := by
  intro pairs
  induction pairs with
  | nil => intro i st; simp [runLoop]
  | cons p rest ih =>
      intro i st
      obtain ⟨b, resp⟩ := p
      rw [runLoop]
      simp only []
      rw [ih (i + 1) (processBatch i st b resp)]
      simp only [List.length_cons]
      rw [List.range_succ_eq_map, List.map_cons, List.map_map, List.flatten_cons]
      have hhead : blockEvents N B tb i st ((b, resp) :: rest) 0
          = RunEvent.publish (preBatchStats N B tb i st)
            :: RunEvent.dispatch i b :: waitEvents tb i resp := by
        simp [blockEvents, stateAt, runLoop]
      have hmap : List.map (blockEvents N B tb i st ((b, resp) :: rest) ∘ Nat.succ)
            (List.range rest.length)
          = List.map (blockEvents N B tb (i + 1) (processBatch i st b resp) rest)
            (List.range rest.length) := by
        apply List.map_congr_left
        intro j _
        have h1 : i + 1 + j = i + (j + 1) := by omega
        simp only [Function.comp, blockEvents, stateAt, List.take_succ_cons, runLoop,
          List.getD_cons_succ, h1]
      rw [hmap, hhead]

theorem le_ceilDiv_mul {n B : Nat} (hB : 0 < B) : n ≤ ceilDiv n B * B := by
  unfold ceilDiv
  rw [Nat.mul_comm]
  have h := Nat.div_add_mod (n + B - 1) B
  have hr := Nat.mod_lt (n + B - 1) hB
  omega

theorem mul_le_of_lt_ceilDiv {j n B : Nat} (hB : 0 < B) (hj : j < ceilDiv n B) :
    j * B ≤ n := by
  rcases Nat.eq_zero_or_pos n with hn | hn
  · subst hn; rw [ceilDiv_zero_left] at hj; omega
  · have h1 : j + 1 ≤ (n + B - 1) / B := hj
    have h2 : (j + 1) * B ≤ n + B - 1 := (Nat.le_div_iff_mul_le hB).mp h1
    have h3 : j * B + B = (j + 1) * B := by rw [Nat.succ_mul]
    omega

/-- The totals of a whole run. -/
def runTotals (products : List ProductRow) (B : Nat)
    (resps : List BatchResponse) : RunState :=
  (uploadProductsBatch products B resps).1

/-- The event trace of a whole run. -/
def runEvents (products : List ProductRow) (B : Nat)
    (resps : List BatchResponse) : List RunEvent :=
  (uploadProductsBatch products B resps).2.1

/-- The progress records a whole run publishes, in order. -/
def runPublishes (products : List ProductRow) (B : Nat)
    (resps : List BatchResponse) : List ProcessingStats :=
  publishedStats (runEvents products B resps)

/-- A placeholder progress record for out-of-range list reads. -/
def emptyStats : ProcessingStats := ⟨0, 0, 0, 0, 0, 0⟩

theorem runTotals_eq (products : List ProductRow) (B : Nat)
    (resps : List BatchResponse) :
    runTotals products B resps
      = (runLoop products.length B (ceilDiv products.length B) 0 initState
          ((batchesOf products B).zip resps)).1 := rfl

theorem runEvents_eq (products : List ProductRow) (B : Nat)
    (resps : List BatchResponse) :
    runEvents products B resps
      = (runLoop products.length B (ceilDiv products.length B) 0 initState
          ((batchesOf products B).zip resps)).2
        ++ [RunEvent.publish (finalStats products.length
              (ceilDiv products.length B) (runTotals products B resps))] := rfl

theorem zip_length_eq {products : List ProductRow} {B : Nat}
    {resps : List BatchResponse}
    (hlen : resps.length = ceilDiv products.length B) :
    ((batchesOf products B).zip resps).length = ceilDiv products.length B := by
  rw [List.length_zip, batchesOf_length, hlen, Nat.min_self]

theorem run_dispatch_batches {products : List ProductRow} {B : Nat}
    {resps : List BatchResponse}
    (hlen : resps.length = ceilDiv products.length B) :
    (dispatches (runEvents products B resps)).map Prod.snd = batchesOf products B := by
  rw [runEvents_eq]
  simp only [dispatches, List.filterMap_append]
  have h1 : List.filterMap
      (fun e => match e with | RunEvent.dispatch i b => some (i, b) | _ => none)
      [RunEvent.publish (finalStats products.length
        (ceilDiv products.length B) (runTotals products B resps))] = [] := by simp
  rw [h1, List.append_nil]
  have h2 := runLoop_dispatches products.length B (ceilDiv products.length B)
    ((batchesOf products B).zip resps) 0 initState
  simp only [dispatches] at h2
  rw [h2, List.map_map]
  have h3 : (Prod.snd ∘ fun p : Nat × (List ProductRow × BatchResponse) => (p.1, p.2.1))
      = (fun p : Nat × (List ProductRow × BatchResponse) => p.2.1) := rfl
  rw [h3]
  have h4 : (fun p : Nat × (List ProductRow × BatchResponse) => p.2.1)
      = (Prod.fst ∘ Prod.snd) := rfl
  rw [h4, ← List.map_map, List.enumFrom_map_snd]
  apply List.map_fst_zip
  rw [hlen, batchesOf_length]

/-- The batches a run actually dispatches, with their 0-based indices. -/
theorem run_dispatches_enum {products : List ProductRow} {B : Nat}
    {resps : List BatchResponse} :
    dispatches (runEvents products B resps)
      = (((batchesOf products B).zip resps).enumFrom 0).map
          (fun p => (p.1, p.2.1)) := by
  rw [runEvents_eq]
  simp only [dispatches, List.filterMap_append]
  have h2 := runLoop_dispatches products.length B (ceilDiv products.length B)
    ((batchesOf products B).zip resps) 0 initState
  simp only [dispatches] at h2
  rw [h2]
  simp

theorem run_publishes {products : List ProductRow} {B : Nat}
    {resps : List BatchResponse}
    (hlen : resps.length = ceilDiv products.length B) :
    runPublishes products B resps
      = (List.range (ceilDiv products.length B)).map
          (fun j => preBatchStats products.length B (ceilDiv products.length B) j
            (stateAt products.length B (ceilDiv products.length B) 0 initState
              ((batchesOf products B).zip resps) j))
        ++ [finalStats products.length (ceilDiv products.length B)
              (runTotals products B resps)] := by
  rw [runPublishes, runEvents_eq]
  simp only [publishedStats, List.filterMap_append]
  have h2 := runLoop_publishes products.length B (ceilDiv products.length B)
    ((batchesOf products B).zip resps) 0 initState
  simp only [publishedStats] at h2
  rw [h2, zip_length_eq hlen]
  congr 1
  apply List.map_congr_left
  intro j _
  have h0 : 0 + j = j := by omega
  rw [h0]

theorem runPublishes_length {products : List ProductRow} {B : Nat}
    {resps : List BatchResponse}
    (hlen : resps.length = ceilDiv products.length B) :
    (runPublishes products B resps).length = ceilDiv products.length B + 1 := by
  rw [run_publishes hlen]
  simp

theorem processed_at {products : List ProductRow} {B : Nat}
    {resps : List BatchResponse} (hB : 0 < B)
    (hlen : resps.length = ceilDiv products.length B) {j : Nat}
    (hj : j ≤ ceilDiv products.length B) :
    ((runPublishes products B resps).getD j emptyStats).processed
      = min (j * B) products.length := by
  rw [run_publishes hlen]
  rcases Nat.lt_or_ge j (ceilDiv products.length B) with h | h
  · have hlt : j < ((List.range (ceilDiv products.length B)).map
        (fun j => preBatchStats products.length B (ceilDiv products.length B) j
          (stateAt products.length B (ceilDiv products.length B) 0 initState
            ((batchesOf products B).zip resps) j))).length := by
      simpa using h
    rw [List.getD_eq_getElem?_getD, List.getElem?_append_left hlt,
      List.getElem?_map, List.getElem?_range h]
    have hmin : min (j * B) products.length = j * B :=
      Nat.min_eq_left (mul_le_of_lt_ceilDiv hB h)
    simp [preBatchStats, hmin]
  · have hje : j = ceilDiv products.length B := le_antisymm hj h
    rw [List.getD_eq_getElem?_getD, List.getElem?_append_right (by simpa using h)]
    simp only [List.length_map, List.length_range]
    rw [hje, Nat.sub_self]
    have hmin : min (ceilDiv products.length B * B) products.length = products.length :=
      Nat.min_eq_right (le_ceilDiv_mul hB)
    simp [finalStats, hmin]

theorem zip_getD {α β : Type _} {l₁ : List α} {l₂ : List β} {i : Nat}
    (h1 : i < l₁.length) (h2 : i < l₂.length) (d₁ : α) (d₂ : β) :
    (l₁.zip l₂).getD i (d₁, d₂) = (l₁.getD i d₁, l₂.getD i d₂) := by
  have hz : i < (l₁.zip l₂).length := by
    rw [List.length_zip]; omega
  rw [List.getD_eq_getElem _ _ hz, List.getD_eq_getElem _ _ h1,
    List.getD_eq_getElem _ _ h2, List.getElem_zip]

/-- A fixed valid canonical record used as a concrete test fixture. -/
def sampleRow : ProductRow :=
  { name := "Shoe", product_type := "sneakers", price := none,
    gender := "unisex", availability_status := "in_stock" }

/-! ## The claims -/

/-- **C1.** For every list of `N` valid records and batch size `B ≥ 1`
(default 10), the batched upload flow produces exactly `⌈N/B⌉` batches
whose sizes sum to `N`, each of size at most `B`, and whose concatenation
in dispatch order equals the original record list in original order. -/
theorem claim_c1_batch_partition (products : List ProductRow) (B : Nat)
    (resps : List BatchResponse) (hB : 1 ≤ B)
    (hlen : resps.length = ceilDiv products.length B) :
    (batchesOf products B).length = ceilDiv products.length B
    ∧ (∀ b ∈ batchesOf products B, b.length ≤ B)
    ∧ ((batchesOf products B).map List.length).sum = products.length
    ∧ ((dispatches (runEvents products B resps)).map Prod.snd).flatten
        = products := by
  refine ⟨batchesOf_length products B, fun _ hb => batchesOf_mem_length_le hb,
    batchesOf_sum_lengths hB products, ?_⟩
  rw [run_dispatch_batches hlen]
  exact batchesOf_join hB products.length products le_rfl

theorem claim_c1_batch_partition_witness :
    (batchesOf (List.replicate 25 sampleRow) 10).length
        = ceilDiv (List.replicate 25 sampleRow).length 10
    ∧ (∀ b ∈ batchesOf (List.replicate 25 sampleRow) 10, b.length ≤ 10)
    ∧ ((batchesOf (List.replicate 25 sampleRow) 10).map List.length).sum
        = (List.replicate 25 sampleRow).length
    ∧ ((dispatches (runEvents (List.replicate 25 sampleRow) 10
          (List.replicate 3 (BatchResponse.success ⟨10, 0, 0, []⟩)))).map
            Prod.snd).flatten
        = List.replicate 25 sampleRow :=
  claim_c1_batch_partition (List.replicate 25 sampleRow) 10
    (List.replicate 3 (BatchResponse.success ⟨10, 0, 0, []⟩))
    (by decide) (by decide)

/-- **C9.** For every run and every `k` from 0 to the number of batches,
the progress state published at the `k`-th batch boundary has `processed`
equal to the sum of the sizes of the first `k` batches; hence `processed`
is monotone across boundaries and equals the total record count at the
terminal boundary. -/
theorem claim_c9_progress_processed (products : List ProductRow) (B : Nat)
    (resps : List BatchResponse) (hB : 1 ≤ B)
    (hlen : resps.length = ceilDiv products.length B) (k : Nat)
    (hk : k ≤ ceilDiv products.length B) :
    (runPublishes products B resps).length = ceilDiv products.length B + 1
    ∧ ((runPublishes products B resps).getD k emptyStats).processed
        = (((batchesOf products B).take k).map List.length).sum
    ∧ (∀ j, j ≤ k →
        ((runPublishes products B resps).getD j emptyStats).processed
          ≤ ((runPublishes products B resps).getD k emptyStats).processed)
    ∧ ((runPublishes products B resps).getD (ceilDiv products.length B)
          emptyStats).processed = products.length := by
  refine ⟨runPublishes_length hlen, ?_, ?_, ?_⟩
  · rw [processed_at hB hlen hk,
      batchesOf_take_sum hB products.length products k le_rfl]
  · intro j hj
    rw [processed_at hB hlen (le_trans hj hk), processed_at hB hlen hk]
    have := Nat.mul_le_mul_right B hj
    omega
  · rw [processed_at hB hlen le_rfl]
    exact Nat.min_eq_right (le_ceilDiv_mul hB)

theorem claim_c9_progress_processed_witness :
    (runPublishes (List.replicate 25 sampleRow) 10
        (List.replicate 3 (BatchResponse.success ⟨10, 0, 0, []⟩))).length
      = ceilDiv (List.replicate 25 sampleRow).length 10 + 1
    ∧ ((runPublishes (List.replicate 25 sampleRow) 10
          (List.replicate 3 (BatchResponse.success ⟨10, 0, 0, []⟩))).getD 2
            emptyStats).processed
        = (((batchesOf (List.replicate 25 sampleRow) 10).take 2).map
            List.length).sum
    ∧ (∀ j, j ≤ 2 →
        ((runPublishes (List.replicate 25 sampleRow) 10
            (List.replicate 3 (BatchResponse.success ⟨10, 0, 0, []⟩))).getD j
              emptyStats).processed
          ≤ ((runPublishes (List.replicate 25 sampleRow) 10
              (List.replicate 3 (BatchResponse.success ⟨10, 0, 0, []⟩))).getD 2
                emptyStats).processed)
    ∧ ((runPublishes (List.replicate 25 sampleRow) 10
          (List.replicate 3 (BatchResponse.success ⟨10, 0, 0, []⟩))).getD
            (ceilDiv (List.replicate 25 sampleRow).length 10)
              emptyStats).processed
        = (List.replicate 25 sampleRow).length :=
  claim_c9_progress_processed (List.replicate 25 sampleRow) 10
    (List.replicate 3 (BatchResponse.success ⟨10, 0, 0, []⟩))
    (by decide) (by decide) 2 (by decide)

theorem runTotals_totalErrors (products : List ProductRow) (B : Nat)
    (resps : List BatchResponse) :
    (runTotals products B resps).totalErrors
      = (((batchesOf products B).zip resps).map errorDelta).sum := by
  rw [runTotals_eq]
  have h := (runLoop_state_totals products.length B (ceilDiv products.length B)
    ((batchesOf products B).zip resps) 0 initState).2.2
  rw [h]
  simp [initState]

theorem runTotals_allErrors (products : List ProductRow) (B : Nat)
    (resps : List BatchResponse) :
    (runTotals products B resps).allErrors
      = ((((batchesOf products B).zip resps).enumFrom 0).map
          (fun p => batchMessages p.1 p.2)).flatten := by
  rw [runTotals_eq]
  have h := runLoop_state_allErrors products.length B (ceilDiv products.length B)
    ((batchesOf products B).zip resps) 0 initState
  rw [h]
  simp [initState]

theorem runEvents_getLast (products : List ProductRow) (B : Nat)
    (resps : List BatchResponse) :
    (runEvents products B resps).getLast?
      = some (RunEvent.publish (finalStats products.length
          (ceilDiv products.length B) (runTotals products B resps))) := by
  rw [runEvents_eq]
  exact List.getLast?_concat _

/-- **C2.** For every run and every batch, if the batch's transport call
fails (non-ok response or exception), then every record of that batch is
counted as an error, exactly one aggregate message is appended for the
batch, the batch is not retried (each batch is dispatched exactly once, in
order), the run still processes all remaining batches, and it reaches the
terminal summary — a transport failure is never fatal to the run. -/
theorem claim_c2_transport_failure (products : List ProductRow) (B : Nat)
    (resps : List BatchResponse) (i : Nat) (msg : String) (_hB : 1 ≤ B)
    (hlen : resps.length = ceilDiv products.length B)
    (hi : i < ceilDiv products.length B)
    (hf : resps.getD i (BatchResponse.failure "") = BatchResponse.failure msg) :
    ((runTotals products B resps).totalErrors
        = (((batchesOf products B).zip resps).map errorDelta).sum
      ∧ errorDelta (((batchesOf products B).zip resps).getD i
            ([], BatchResponse.failure ""))
          = ((batchesOf products B).getD i []).length)
    ∧ ((runTotals products B resps).allErrors
        = ((((batchesOf products B).zip resps).enumFrom 0).map
            (fun p => batchMessages p.1 p.2)).flatten
      ∧ batchMessages i (((batchesOf products B).zip resps).getD i
            ([], BatchResponse.failure ""))
          = [failureMessage i msg])
    ∧ (dispatches (runEvents products B resps)
        = (((batchesOf products B).zip resps).enumFrom 0).map
            (fun p => (p.1, p.2.1))
      ∧ (dispatches (runEvents products B resps)).length
          = ceilDiv products.length B)
    ∧ (runEvents products B resps).getLast?
        = some (RunEvent.publish (finalStats products.length
            (ceilDiv products.length B) (runTotals products B resps))) := by
  have hb : i < (batchesOf products B).length := by
    rw [batchesOf_length]; exact hi
  have hr : i < resps.length := by omega
  have hget := zip_getD hb hr ([] : List ProductRow) (BatchResponse.failure "")
  refine ⟨⟨runTotals_totalErrors products B resps, ?_⟩,
    ⟨runTotals_allErrors products B resps, ?_⟩,
    ⟨run_dispatches_enum, ?_⟩,
    runEvents_getLast products B resps⟩
  · rw [hget, hf]
    rfl
  · rw [hget, hf]
    rfl
  · rw [run_dispatches_enum]
    rw [List.length_map, List.enumFrom_length]
    exact zip_length_eq hlen

theorem claim_c2_transport_failure_witness :
    ((runTotals (List.replicate 25 sampleRow) 10
        [BatchResponse.success ⟨10, 0, 0, []⟩, BatchResponse.failure "boom",
          BatchResponse.success ⟨5, 0, 0, []⟩]).totalErrors
        = (((batchesOf (List.replicate 25 sampleRow) 10).zip
            [BatchResponse.success ⟨10, 0, 0, []⟩, BatchResponse.failure "boom",
              BatchResponse.success ⟨5, 0, 0, []⟩]).map errorDelta).sum
      ∧ errorDelta (((batchesOf (List.replicate 25 sampleRow) 10).zip
            [BatchResponse.success ⟨10, 0, 0, []⟩, BatchResponse.failure "boom",
              BatchResponse.success ⟨5, 0, 0, []⟩]).getD 1
            ([], BatchResponse.failure ""))
          = ((batchesOf (List.replicate 25 sampleRow) 10).getD 1 []).length)
    ∧ ((runTotals (List.replicate 25 sampleRow) 10
        [BatchResponse.success ⟨10, 0, 0, []⟩, BatchResponse.failure "boom",
          BatchResponse.success ⟨5, 0, 0, []⟩]).allErrors
        = ((((batchesOf (List.replicate 25 sampleRow) 10).zip
            [BatchResponse.success ⟨10, 0, 0, []⟩, BatchResponse.failure "boom",
              BatchResponse.success ⟨5, 0, 0, []⟩]).enumFrom 0).map
            (fun p => batchMessages p.1 p.2)).flatten
      ∧ batchMessages 1 (((batchesOf (List.replicate 25 sampleRow) 10).zip
            [BatchResponse.success ⟨10, 0, 0, []⟩, BatchResponse.failure "boom",
              BatchResponse.success ⟨5, 0, 0, []⟩]).getD 1
            ([], BatchResponse.failure ""))
          = [failureMessage 1 "boom"])
    ∧ (dispatches (runEvents (List.replicate 25 sampleRow) 10
          [BatchResponse.success ⟨10, 0, 0, []⟩, BatchResponse.failure "boom",
            BatchResponse.success ⟨5, 0, 0, []⟩])
        = (((batchesOf (List.replicate 25 sampleRow) 10).zip
            [BatchResponse.success ⟨10, 0, 0, []⟩, BatchResponse.failure "boom",
              BatchResponse.success ⟨5, 0, 0, []⟩]).enumFrom 0).map
            (fun p => (p.1, p.2.1))
      ∧ (dispatches (runEvents (List.replicate 25 sampleRow) 10
          [BatchResponse.success ⟨10, 0, 0, []⟩, BatchResponse.failure "boom",
            BatchResponse.success ⟨5, 0, 0, []⟩])).length
          = ceilDiv (List.replicate 25 sampleRow).length 10)
    ∧ (runEvents (List.replicate 25 sampleRow) 10
        [BatchResponse.success ⟨10, 0, 0, []⟩, BatchResponse.failure "boom",
          BatchResponse.success ⟨5, 0, 0, []⟩]).getLast?
        = some (RunEvent.publish (finalStats (List.replicate 25 sampleRow).length
            (ceilDiv (List.replicate 25 sampleRow).length 10)
            (runTotals (List.replicate 25 sampleRow) 10
              [BatchResponse.success ⟨10, 0, 0, []⟩, BatchResponse.failure "boom",
                BatchResponse.success ⟨5, 0, 0, []⟩]))) :=
  claim_c2_transport_failure (List.replicate 25 sampleRow) 10
    [BatchResponse.success ⟨10, 0, 0, []⟩, BatchResponse.failure "boom",
      BatchResponse.success ⟨5, 0, 0, []⟩] 1 "boom"
    (by decide) (by decide) (by decide) (by decide)

/-- The status message of a whole run. -/
def runStatus (products : List ProductRow) (B : Nat)
    (resps : List BatchResponse) : String :=
  (uploadProductsBatch products B resps).2.2.2

theorem runStatus_eq (products : List ProductRow) (B : Nat)
    (resps : List BatchResponse) :
    runStatus products B resps = finalStatusMessage (runTotals products B resps) := rfl

theorem take8_append (p : String) (x : List Char) (hp : 8 ≤ p.data.length) :
    (p.data ++ x).take 8 = p.data.take 8 := by
  rw [List.take_append_eq_append_take]
  have h0 : 8 - p.data.length = 0 := by omega
  rw [h0]
  simp

theorem status_strings_ne (a b : String) :
    "Upload complete! Successfully uploaded " ++ a ++ " products"
      ≠ "Upload finished with issues. " ++ b ++ " errors occurred." := by
  intro h
  have hd := congrArg (fun s => s.data.take 8) h
  simp only [String.data_append, List.append_assoc] at hd
  rw [take8_append "Upload complete! Successfully uploaded " _ (by decide),
    take8_append "Upload finished with issues. " _ (by decide)] at hd
  exact absurd hd (by decide)

/-- **C7.** For every run that reaches completion, the terminal status is
the success message exactly when the cumulative uploaded count is positive;
otherwise it is the failure message naming the cumulative error count. -/
theorem claim_c7_terminal_status (products : List ProductRow) (B : Nat)
    (resps : List BatchResponse) :
    ((runTotals products B resps).totalUploaded > 0 ↔
      runStatus products B resps
        = "Upload complete! Successfully uploaded "
          ++ toString (runTotals products B resps).totalUploaded ++ " products")
    ∧ ((runTotals products B resps).totalUploaded = 0 →
      runStatus products B resps
        = "Upload finished with issues. "
          ++ toString (runTotals products B resps).totalErrors
          ++ " errors occurred.") := by
  rw [runStatus_eq]
  unfold finalStatusMessage
  rcases Nat.eq_zero_or_pos (runTotals products B resps).totalUploaded with h | h
  · rw [h, if_neg (lt_irrefl 0)]
    exact ⟨⟨fun hc => absurd hc (lt_irrefl 0),
      fun hc => absurd hc.symm (status_strings_ne _ _)⟩, fun _ => rfl⟩
  · rw [if_pos h]
    exact ⟨⟨fun _ => rfl, fun _ => h⟩, fun hz => by omega⟩

theorem claim_c7_terminal_status_witness :
    ((runTotals [] 10 []).totalUploaded > 0 ↔
      runStatus [] 10 []
        = "Upload complete! Successfully uploaded "
          ++ toString (runTotals [] 10 []).totalUploaded ++ " products")
    ∧ ((runTotals [] 10 []).totalUploaded = 0 →
      runStatus [] 10 []
        = "Upload finished with issues. "
          ++ toString (runTotals [] 10 []).totalErrors ++ " errors occurred.") :=
  claim_c7_terminal_status [] 10 []

/-- **C8 counterexample.** The claim predicts a 500 ms pacing wait between
every pair of consecutive batches regardless of batch outcome.  In the run
below there are two batches (11 records, batch size 10) and the first
batch's transport call fails: the source's `setTimeout` sits inside the
`try` block after the response is consumed, so the failure jumps to
`catch` and no wait at all is executed — yet batch 1 and batch 2 are a
pair of consecutive batches. -/
theorem claim_c8_counterexample :
    1 < ceilDiv (List.replicate 11 sampleRow).length 10
    ∧ RunEvent.wait 500 ∉ runEvents (List.replicate 11 sampleRow) 10
        [BatchResponse.failure "network error",
          BatchResponse.success ⟨1, 0, 0, []⟩] := by
  constructor
  · decide
  · decide

/-- **C8 (amended).** In every run, the trace is the concatenation of the
per-iteration event blocks followed by the terminal publication, and the
500 ms pacing wait occurs in iteration `j` exactly when batch `j`'s
transport call succeeded and `j` is not the last batch; after a failed
batch — and after the final batch — no wait occurs. -/
theorem claim_c8_amended_pacing (products : List ProductRow) (B : Nat)
    (resps : List BatchResponse) (_hB : 1 ≤ B)
    (hlen : resps.length = ceilDiv products.length B) :
    (runEvents products B resps
      = ((List.range (ceilDiv products.length B)).map
          (blockEvents products.length B (ceilDiv products.length B) 0 initState
            ((batchesOf products B).zip resps))).flatten
        ++ [RunEvent.publish (finalStats products.length
              (ceilDiv products.length B) (runTotals products B resps))])
    ∧ ∀ j < ceilDiv products.length B,
        (RunEvent.wait 500 ∈ blockEvents products.length B
            (ceilDiv products.length B) 0 initState
            ((batchesOf products B).zip resps) j
          ↔ ((resps.getD j (BatchResponse.failure "")).succeeded = true
              ∧ j + 1 < ceilDiv products.length B)) := by
  constructor
  · rw [runEvents_eq]
    have h := runLoop_events products.length B (ceilDiv products.length B)
      ((batchesOf products B).zip resps) 0 initState
    rw [h, zip_length_eq hlen]
  · intro j hj
    have hb : j < (batchesOf products B).length := by
      rw [batchesOf_length]; exact hj
    have hr : j < resps.length := by omega
    have hpair := zip_getD hb hr ([] : List ProductRow) (BatchResponse.failure "")
    have h0j : 0 + j = j := by omega
    simp only [blockEvents, hpair, h0j, List.mem_cons]
    cases hresp : resps.getD j (BatchResponse.failure "") with
    | success r =>
        simp only [waitEvents, BatchResponse.succeeded]
        by_cases hlt : j < ceilDiv products.length B - 1
        · rw [if_pos hlt]
          constructor
          · intro _
            exact ⟨by trivial, by omega⟩
          · intro _
            right; right
            simp
        · rw [if_neg hlt]
          constructor
          · intro hmem
            rcases hmem with hc | hc | hc <;> simp at hc
          · intro hc
            exact absurd (by omega : j < ceilDiv products.length B - 1) hlt
    | failure m =>
        simp [waitEvents, BatchResponse.succeeded]

theorem claim_c8_amended_pacing_witness :
    (runEvents (List.replicate 11 sampleRow) 10
        [BatchResponse.failure "network error",
          BatchResponse.success ⟨1, 0, 0, []⟩]
      = ((List.range (ceilDiv (List.replicate 11 sampleRow).length 10)).map
          (blockEvents (List.replicate 11 sampleRow).length 10
            (ceilDiv (List.replicate 11 sampleRow).length 10) 0 initState
            ((batchesOf (List.replicate 11 sampleRow) 10).zip
              [BatchResponse.failure "network error",
                BatchResponse.success ⟨1, 0, 0, []⟩]))).flatten
        ++ [RunEvent.publish (finalStats (List.replicate 11 sampleRow).length
              (ceilDiv (List.replicate 11 sampleRow).length 10)
              (runTotals (List.replicate 11 sampleRow) 10
                [BatchResponse.failure "network error",
                  BatchResponse.success ⟨1, 0, 0, []⟩]))])
    ∧ ∀ j < ceilDiv (List.replicate 11 sampleRow).length 10,
        (RunEvent.wait 500 ∈ blockEvents (List.replicate 11 sampleRow).length 10
            (ceilDiv (List.replicate 11 sampleRow).length 10) 0 initState
            ((batchesOf (List.replicate 11 sampleRow) 10).zip
              [BatchResponse.failure "network error",
                BatchResponse.success ⟨1, 0, 0, []⟩]) j
          ↔ (([BatchResponse.failure "network error",
                BatchResponse.success ⟨1, 0, 0, []⟩].getD j
                  (BatchResponse.failure "")).succeeded = true
              ∧ j + 1 < ceilDiv (List.replicate 11 sampleRow).length 10)) :=
  claim_c8_amended_pacing (List.replicate 11 sampleRow) 10
    [BatchResponse.failure "network error", BatchResponse.success ⟨1, 0, 0, []⟩]
    (by decide) (by decide)

theorem runTotals_totalUploaded (products : List ProductRow) (B : Nat)
    (resps : List BatchResponse) :
    (runTotals products B resps).totalUploaded
      = (((batchesOf products B).zip resps).map uploadedDelta).sum := by
  rw [runTotals_eq]
  have h := (runLoop_state_totals products.length B (ceilDiv products.length B)
    ((batchesOf products B).zip resps) 0 initState).1
  rw [h]
  simp [initState]

theorem runTotals_totalSkipped (products : List ProductRow) (B : Nat)
    (resps : List BatchResponse) :
    (runTotals products B resps).totalSkipped
      = (((batchesOf products B).zip resps).map skippedDelta).sum := by
  rw [runTotals_eq]
  have h := (runLoop_state_totals products.length B (ceilDiv products.length B)
    ((batchesOf products B).zip resps) 0 initState).2.1
  rw [h]
  simp [initState]

/-- **C6 counterexample.**  The claim says the endpoint's reported counts
are never substituted.  But in `handleBulkUpload` of
`ProductCSVUpload.tsx`, a successful response whose reported
`uploaded_count` is `0` (falsy) is replaced by the parsed-row count
(`result.uploaded_count || parsedRows.length`): with 3 parsed rows and a
response reporting `uploaded_count = 0`, the flow surfaces `3`, not the
reported `0`. -/
theorem claim_c6_counterexample :
    handleBulkUploadReportedCount (some 0) 3 = 3 ∧ (3 : Nat) ≠ 0 := by
  constructor
  · rfl
  · decide

/-- **C6 (amended).**  In the batched pipeline (`uploadProductsBatch`),
every successful per-batch response's `uploaded_count`, `skipped_count`
and `error_count` are added verbatim into the running summary, and its
error messages are concatenated verbatim (no deduplication); the
single-call flow (`handleBulkUpload`) surfaces the reported
`uploaded_count` verbatim only when it is non-zero, and substitutes the
parsed-row count when it is zero or missing. -/
theorem claim_c6_amended_verbatim_merge (products : List ProductRow) (B : Nat)
    (resps : List BatchResponse)
    (hlen : resps.length = ceilDiv products.length B) :
    ((runTotals products B resps).totalUploaded
        = (((batchesOf products B).zip resps).map uploadedDelta).sum
      ∧ (runTotals products B resps).totalSkipped
        = (((batchesOf products B).zip resps).map skippedDelta).sum
      ∧ (runTotals products B resps).totalErrors
        = (((batchesOf products B).zip resps).map errorDelta).sum
      ∧ (runTotals products B resps).allErrors
        = ((((batchesOf products B).zip resps).enumFrom 0).map
            (fun p => batchMessages p.1 p.2)).flatten)
    ∧ (∀ i, i < ceilDiv products.length B → ∀ r : UploadResult,
        resps.getD i (BatchResponse.failure "") = BatchResponse.success r →
          uploadedDelta (((batchesOf products B).zip resps).getD i
              ([], BatchResponse.failure "")) = r.uploaded_count
          ∧ skippedDelta (((batchesOf products B).zip resps).getD i
              ([], BatchResponse.failure "")) = r.skipped_count
          ∧ errorDelta (((batchesOf products B).zip resps).getD i
              ([], BatchResponse.failure "")) = r.error_count
          ∧ batchMessages i (((batchesOf products B).zip resps).getD i
              ([], BatchResponse.failure "")) = r.errors)
    ∧ (∀ c n : Nat, c ≠ 0 → handleBulkUploadReportedCount (some c) n = c)
    ∧ (∀ n : Nat, handleBulkUploadReportedCount (some 0) n = n)
    ∧ (∀ n : Nat, handleBulkUploadReportedCount none n = n) := by
  refine ⟨⟨runTotals_totalUploaded products B resps,
      runTotals_totalSkipped products B resps,
      runTotals_totalErrors products B resps,
      runTotals_allErrors products B resps⟩, ?_, ?_, fun n => rfl, fun n => rfl⟩
  · intro i hi r hr
    have hb : i < (batchesOf products B).length := by
      rw [batchesOf_length]; exact hi
    have hrl : i < resps.length := by omega
    have hpair := zip_getD hb hrl ([] : List ProductRow) (BatchResponse.failure "")
    rw [hpair, hr]
    exact ⟨rfl, rfl, rfl, rfl⟩
  · intro c n hc
    simp [handleBulkUploadReportedCount, hc]

theorem claim_c6_amended_verbatim_merge_witness :
    ((runTotals (List.replicate 25 sampleRow) 10
          [BatchResponse.success ⟨9, 1, 0, ["dup"]⟩,
            BatchResponse.success ⟨10, 0, 0, []⟩,
            BatchResponse.success ⟨4, 0, 1, ["dup"]⟩]).totalUploaded
        = (((batchesOf (List.replicate 25 sampleRow) 10).zip
            [BatchResponse.success ⟨9, 1, 0, ["dup"]⟩,
              BatchResponse.success ⟨10, 0, 0, []⟩,
              BatchResponse.success ⟨4, 0, 1, ["dup"]⟩]).map uploadedDelta).sum
      ∧ (runTotals (List.replicate 25 sampleRow) 10
          [BatchResponse.success ⟨9, 1, 0, ["dup"]⟩,
            BatchResponse.success ⟨10, 0, 0, []⟩,
            BatchResponse.success ⟨4, 0, 1, ["dup"]⟩]).totalSkipped
        = (((batchesOf (List.replicate 25 sampleRow) 10).zip
            [BatchResponse.success ⟨9, 1, 0, ["dup"]⟩,
              BatchResponse.success ⟨10, 0, 0, []⟩,
              BatchResponse.success ⟨4, 0, 1, ["dup"]⟩]).map skippedDelta).sum
      ∧ (runTotals (List.replicate 25 sampleRow) 10
          [BatchResponse.success ⟨9, 1, 0, ["dup"]⟩,
            BatchResponse.success ⟨10, 0, 0, []⟩,
            BatchResponse.success ⟨4, 0, 1, ["dup"]⟩]).totalErrors
        = (((batchesOf (List.replicate 25 sampleRow) 10).zip
            [BatchResponse.success ⟨9, 1, 0, ["dup"]⟩,
              BatchResponse.success ⟨10, 0, 0, []⟩,
              BatchResponse.success ⟨4, 0, 1, ["dup"]⟩]).map errorDelta).sum
      ∧ (runTotals (List.replicate 25 sampleRow) 10
          [BatchResponse.success ⟨9, 1, 0, ["dup"]⟩,
            BatchResponse.success ⟨10, 0, 0, []⟩,
            BatchResponse.success ⟨4, 0, 1, ["dup"]⟩]).allErrors
        = ((((batchesOf (List.replicate 25 sampleRow) 10).zip
            [BatchResponse.success ⟨9, 1, 0, ["dup"]⟩,
              BatchResponse.success ⟨10, 0, 0, []⟩,
              BatchResponse.success ⟨4, 0, 1, ["dup"]⟩]).enumFrom 0).map
            (fun p => batchMessages p.1 p.2)).flatten)
    ∧ (uploadedDelta (((batchesOf (List.replicate 25 sampleRow) 10).zip
          [BatchResponse.success ⟨9, 1, 0, ["dup"]⟩,
            BatchResponse.success ⟨10, 0, 0, []⟩,
            BatchResponse.success ⟨4, 0, 1, ["dup"]⟩]).getD 0
          ([], BatchResponse.failure "")) = 9
      ∧ skippedDelta (((batchesOf (List.replicate 25 sampleRow) 10).zip
          [BatchResponse.success ⟨9, 1, 0, ["dup"]⟩,
            BatchResponse.success ⟨10, 0, 0, []⟩,
            BatchResponse.success ⟨4, 0, 1, ["dup"]⟩]).getD 0
          ([], BatchResponse.failure "")) = 1
      ∧ errorDelta (((batchesOf (List.replicate 25 sampleRow) 10).zip
          [BatchResponse.success ⟨9, 1, 0, ["dup"]⟩,
            BatchResponse.success ⟨10, 0, 0, []⟩,
            BatchResponse.success ⟨4, 0, 1, ["dup"]⟩]).getD 0
          ([], BatchResponse.failure "")) = 0
      ∧ batchMessages 0 (((batchesOf (List.replicate 25 sampleRow) 10).zip
          [BatchResponse.success ⟨9, 1, 0, ["dup"]⟩,
            BatchResponse.success ⟨10, 0, 0, []⟩,
            BatchResponse.success ⟨4, 0, 1, ["dup"]⟩]).getD 0
          ([], BatchResponse.failure "")) = ["dup"])
    ∧ handleBulkUploadReportedCount (some 7) 3 = 7
    ∧ handleBulkUploadReportedCount (some 0) 3 = 3
    ∧ handleBulkUploadReportedCount none 3 = 3 := by
  have h := claim_c6_amended_verbatim_merge (List.replicate 25 sampleRow) 10
    [BatchResponse.success ⟨9, 1, 0, ["dup"]⟩,
      BatchResponse.success ⟨10, 0, 0, []⟩,
      BatchResponse.success ⟨4, 0, 1, ["dup"]⟩] (by decide)
  exact ⟨h.1,
    h.2.1 0 (by decide) ⟨9, 1, 0, ["dup"]⟩ (by decide),
    h.2.2.1 7 3 (by decide), h.2.2.2.1 3, h.2.2.2.2 3⟩

theorem normalizeAvailabilityStatus_eq_spec (v : Option String) :
    normalizeAvailabilityStatus v = availabilitySpecModel v := by
  cases v with
  | none => rfl
  | some s =>
      simp only [normalizeAvailabilityStatus, availabilitySpecModel]
      by_cases hs : s = ""
      · rw [if_pos hs, if_pos hs]
      · rw [if_neg hs, if_neg hs]
        by_cases h1 : snakeCase (lowerStr (jsTrim s)) ∈ validStatuses
        · rw [if_pos h1, if_pos h1]
        · rw [if_neg h1, if_neg h1]
          have hA : (lowerStr (jsTrim s) ∈ ["available", "in stock", "available"])
              ↔ (lowerStr (jsTrim s) ∈ ["available", "in stock"]) := by
            simp only [List.mem_cons, List.not_mem_nil, or_false]
            tauto
          by_cases h2 : lowerStr (jsTrim s) = "pre order"
          · exfalso
            apply h1
            rw [h2]
            decide
          · have hP : (lowerStr (jsTrim s) ∈ ["preorder", "pre order", "coming soon"])
                ↔ (lowerStr (jsTrim s) ∈ ["preorder", "coming soon"]) := by
              simp only [List.mem_cons, List.not_mem_nil, or_false]
              constructor
              · rintro (h | h | h)
                · exact Or.inl h
                · exact absurd h h2
                · exact Or.inr h
              · rintro (h | h)
                · exact Or.inl h
                · exact Or.inr (Or.inr h)
            exact if_congr hA rfl (if_congr Iff.rfl rfl (if_congr hP rfl rfl))

theorem normalizeAvailabilityBulk_eq_spec (v : Option String) :
    normalizeAvailabilityBulk v = availabilitySpecModel v := by
  cases v with
  | none => rfl
  | some s =>
      simp only [normalizeAvailabilityBulk, availabilitySpecModel]
      by_cases hs : s = ""
      · rw [if_pos hs, if_pos hs]
      · rw [if_neg hs, if_neg hs]
        by_cases h1 : snakeCase (lowerStr (jsTrim s)) ∈ validStatuses
        · rw [if_pos h1, if_pos h1]
        · rw [if_neg h1, if_neg h1]
          by_cases h3 : lowerStr (jsTrim s) = "stocked"
          · rw [h3]
            decide
          · have hA : (lowerStr (jsTrim s) ∈ ["available", "in stock", "stocked"])
                ↔ (lowerStr (jsTrim s) ∈ ["available", "in stock"]) := by
              simp only [List.mem_cons, List.not_mem_nil, or_false]
              constructor
              · rintro (h | h | h)
                · exact Or.inl h
                · exact Or.inr h
                · exact absurd h h3
              · rintro (h | h)
                · exact Or.inl h
                · exact Or.inr (Or.inl h)
            by_cases h2 : lowerStr (jsTrim s) = "pre order"
            · exfalso
              apply h1
              rw [h2]
              decide
            · have hP : (lowerStr (jsTrim s) ∈ ["preorder", "pre order", "coming soon"])
                  ↔ (lowerStr (jsTrim s) ∈ ["preorder", "coming soon"]) := by
                simp only [List.mem_cons, List.not_mem_nil, or_false]
                constructor
                · rintro (h | h | h)
                  · exact Or.inl h
                  · exact absurd h h2
                  · exact Or.inr h
                · rintro (h | h)
                  · exact Or.inl h
                  · exact Or.inr (Or.inr h)
              exact if_congr hA rfl (if_congr Iff.rfl rfl (if_congr hP rfl rfl))

theorem availabilitySpecModel_mem (v : Option String) :
    availabilitySpecModel v ∈ validStatuses := by
  cases v with
  | none => decide
  | some s =>
      simp only [availabilitySpecModel]
      by_cases hs : s = ""
      · rw [if_pos hs]
        decide
      · rw [if_neg hs]
        split_ifs with h1 h2 h3 h4
        · exact h1
        · decide
        · decide
        · decide
        · decide

theorem normalizeGender_mem (v : Option String) :
    normalizeGender v ∈ validGenders := by
  cases v with
  | none => decide
  | some s =>
      simp only [normalizeGender]
      by_cases hs : s = ""
      · rw [if_pos hs]
        decide
      · rw [if_neg hs]
        split_ifs <;> decide

/-- **C4.** For every input value, availability normalization returns one
of the four canonical statuses and coincides, in both source variants,
with the rule the specification states: lowercase/snake_case first, keep a
value already canonical, otherwise map the known aliases
(available, in stock → in_stock; unavailable, out of stock, sold out →
out_of_stock; preorder, coming soon → pre_order), and map every other
value — including a missing or empty one — to in_stock; in particular
"Sold Out" normalizes to "out_of_stock". -/
theorem claim_c4_availability_normalization :
    (∀ v, normalizeAvailabilityStatus v = availabilitySpecModel v)
    ∧ (∀ v, normalizeAvailabilityBulk v = availabilitySpecModel v)
    ∧ (∀ v, normalizeAvailabilityStatus v ∈ validStatuses)
    ∧ (∀ v, normalizeAvailabilityBulk v ∈ validStatuses)
    ∧ normalizeAvailabilityStatus (some "Sold Out") = "out_of_stock"
    ∧ normalizeAvailabilityBulk (some "Sold Out") = "out_of_stock"
    ∧ normalizeAvailabilityStatus (some "") = "in_stock"
    ∧ normalizeAvailabilityStatus none = "in_stock" := by
  refine ⟨normalizeAvailabilityStatus_eq_spec, normalizeAvailabilityBulk_eq_spec,
    ?_, ?_, by decide, by decide, by decide, by decide⟩
  · intro v
    rw [normalizeAvailabilityStatus_eq_spec]
    exact availabilitySpecModel_mem v
  · intro v
    rw [normalizeAvailabilityBulk_eq_spec]
    exact availabilitySpecModel_mem v

theorem normalizePrice_some_iff (s : String) (q : JSNum) :
    normalizePrice (some s) = some q ↔
      (s ≠ "" ∧ q = parseFloat (jsTrim (stripCurrency s))
        ∧ q.isFinite = true ∧ q.geZero = true) := by
  simp only [normalizePrice]
  by_cases hs : s = ""
  · rw [if_pos hs]
    simp [hs]
  · rw [if_neg hs]
    by_cases hc : ((parseFloat (jsTrim (stripCurrency s))).isFinite
        && (parseFloat (jsTrim (stripCurrency s))).geZero) = true
    · rw [if_pos hc]
      rw [Bool.and_eq_true] at hc
      constructor
      · intro he
        have he2 : parseFloat (jsTrim (stripCurrency s)) = q := Option.some.inj he
        exact ⟨hs, he2.symm, he2 ▸ hc.1, he2 ▸ hc.2⟩
      · rintro ⟨-, he, -, -⟩
        rw [he]
    · rw [if_neg hc]
      constructor
      · intro he
        simp at he
      · rintro ⟨-, he, hf, hg⟩
        exact absurd (he ▸ (Bool.and_eq_true _ _).mpr ⟨hf, hg⟩) hc

/-- **C5.** For every input value, price normalization strips currency
symbols and separators and parses numerically, returning the parsed number
exactly when it is finite and ≥ 0 and `undefined` otherwise (never zero,
never an error); a missing or empty value is `undefined`; in particular
"abc" yields `undefined`, and a row whose price cell is "abc" is still
valid when its other fields comply. -/
theorem claim_c5_price_normalization :
    (∀ s q, normalizePrice (some s) = some q ↔
        (s ≠ "" ∧ q = parseFloat (jsTrim (stripCurrency s))
          ∧ q.isFinite = true ∧ q.geZero = true))
    ∧ normalizePrice none = none
    ∧ normalizePrice (some "") = none
    ∧ normalizePrice (some "abc") = none
    ∧ (normalizeProductRow
        [("name", "Sneaker X"), ("product_type", "Sneakers"),
          ("price", "abc")]).price = none
    ∧ validateProductRow (normalizeProductRow
        [("name", "Sneaker X"), ("product_type", "Sneakers"),
          ("price", "abc")]) = ⟨true, []⟩ :=
  ⟨normalizePrice_some_iff, rfl, by decide, by decide, by decide, by decide⟩

theorem claim_c5_price_normalization_witness :
    normalizePrice (some "$120.00")
      = some (parseFloat (jsTrim (stripCurrency "$120.00"))) :=
  (claim_c5_price_normalization.1 "$120.00"
      (parseFloat (jsTrim (stripCurrency "$120.00")))).mpr
    ⟨by decide, rfl, by decide, by decide⟩

/-! ## Validator characterization -/

/-- The price rule's test, as the validator runs it:
`row.price !== undefined && (row.price < 0 || !Number.isFinite(row.price))`. -/
def priceViolation : Option JSNum → Bool
  | some p => p.ltZero || !p.isFinite
  | none => false

theorem validate_errors_spec (row : ProductRow) :
    (msgName ∈ (validateProductRow row).errors ↔ row.name = "")
    ∧ (msgType ∈ (validateProductRow row).errors ↔ row.product_type = "")
    ∧ (msgPrice ∈ (validateProductRow row).errors ↔ priceViolation row.price = true)
    ∧ (msgGender ∈ (validateProductRow row).errors ↔ ¬ row.gender ∈ validGenders)
    ∧ (msgAvail ∈ (validateProductRow row).errors
        ↔ ¬ row.availability_status ∈ validStatuses)
    ∧ ((validateProductRow row).isValid = true
        ↔ (validateProductRow row).errors = []) := by
  obtain ⟨nm, pt, pr, g, av⟩ := row
  simp only [validateProductRow, validationErrorsOf, priceViolation]
  by_cases h1 : nm = "" <;>
    by_cases h2 : pt = "" <;>
      by_cases h4 : g ∈ validGenders <;>
        by_cases h5 : av ∈ validStatuses <;>
          rcases pr with _ | p
  all_goals simp only [h1, h2, h4, h5, if_true, if_false, if_pos, if_neg,
    not_false_iff, not_true, priceViolation]
  all_goals simp [h1, h2, h4, h5, msgName, msgType, msgPrice, msgGender, msgAvail]

theorem validate_errors_subset (row : ProductRow) :
    ∀ m ∈ (validateProductRow row).errors,
      m = msgName ∨ m = msgType ∨ m = msgPrice ∨ m = msgGender ∨ m = msgAvail := by
  obtain ⟨nm, pt, pr, g, av⟩ := row
  intro m hm
  simp only [validateProductRow, validationErrorsOf, List.mem_append] at hm
  rcases hm with ((((h | h) | h) | h) | h)
  · left
    revert h
    split <;> simp
  · right; left
    revert h
    split <;> simp
  · right; right; left
    revert h
    rcases pr with _ | p
    · simp
    · split <;> simp
  · right; right; right; left
    revert h
    split <;> simp
  · right; right; right; right
    revert h
    split <;> simp

theorem partitionRows_fst :
    ∀ (rows : List ProductRow) (i : Nat),
      (partitionRows i rows).1
        = rows.filter (fun r => (validateProductRow r).isValid) := by
  intro rows
  induction rows with
  | nil => intro i; rfl
  | cons r rest ih =>
      intro i
      cases hv : (validateProductRow r).isValid with
      | true => simp [partitionRows, hv, List.filter_cons, ih (i + 1)]
      | false => simp [partitionRows, hv, List.filter_cons, ih (i + 1)]

theorem partitionRows_snd :
    ∀ (rows : List ProductRow) (i : Nat),
      (partitionRows i rows).2
        = ((rows.enumFrom i).filter
            (fun p => !(validateProductRow p.2).isValid)).map
            (fun p => (p.1 + 1, (validateProductRow p.2).errors)) := by
  intro rows
  induction rows with
  | nil => intro i; rfl
  | cons r rest ih =>
      intro i
      cases hv : (validateProductRow r).isValid with
      | true =>
          simp [partitionRows, hv, List.enumFrom_cons, List.filter_cons, ih (i + 1)]
      | false =>
          simp [partitionRows, hv, List.enumFrom_cons, List.filter_cons, ih (i + 1)]

/-- A concrete row with an empty name, as in the spec's Scenario B. -/
def namelessRow : ProductRow :=
  { name := "", product_type := "sneakers", price := none,
    gender := "unisex", availability_status := "in_stock" }

/-- **C3.** The row validator evaluates its five rules independently (each
violation message appears in a row's report exactly when its rule is
violated, so several violations are reported together); a row is valid
exactly when its violation list is empty; the parse-completion partition
keeps exactly the valid rows (in order) and reports every invalid row with
a 1-based row index and its violation list; and a row belongs to some
batch exactly when it occurs in the input and is valid — rows with at
least one violation are excluded from all batches.  Scenario B: a row
missing `name` is reported with "Product name is required". -/
theorem claim_c3_validator_partition :
    (∀ row : ProductRow,
      (msgName ∈ (validateProductRow row).errors ↔ row.name = "")
      ∧ (msgType ∈ (validateProductRow row).errors ↔ row.product_type = "")
      ∧ (msgPrice ∈ (validateProductRow row).errors
          ↔ priceViolation row.price = true)
      ∧ (msgGender ∈ (validateProductRow row).errors
          ↔ ¬ row.gender ∈ validGenders)
      ∧ (msgAvail ∈ (validateProductRow row).errors
          ↔ ¬ row.availability_status ∈ validStatuses)
      ∧ ((validateProductRow row).isValid = true
          ↔ (validateProductRow row).errors = []))
    ∧ (∀ rows : List ProductRow,
        (partitionRows 0 rows).1
          = rows.filter (fun r => (validateProductRow r).isValid)
        ∧ (partitionRows 0 rows).2
          = ((rows.enum.filter
              (fun p => !(validateProductRow p.2).isValid)).map
              (fun p => (p.1 + 1, (validateProductRow p.2).errors))))
    ∧ (∀ B : Nat, 1 ≤ B → ∀ (rows : List ProductRow) (r : ProductRow),
        (r ∈ (batchesOf (partitionRows 0 rows).1 B).flatten
          ↔ r ∈ rows ∧ (validateProductRow r).isValid = true))
    ∧ (validateProductRow namelessRow).errors = [msgName] := by
  refine ⟨validate_errors_spec, ?_, ?_, by decide⟩
  · intro rows
    exact ⟨partitionRows_fst rows 0, partitionRows_snd rows 0⟩
  · intro B hB rows r
    rw [batchesOf_join hB _ _ le_rfl, partitionRows_fst rows 0, List.mem_filter]

theorem claim_c3_validator_partition_witness :
    (msgName ∈ (validateProductRow namelessRow).errors)
    ∧ (sampleRow ∈
        (batchesOf (partitionRows 0 [namelessRow, sampleRow]).1 10).flatten)
    ∧ (namelessRow ∈ [namelessRow, sampleRow]
        ∧ (validateProductRow namelessRow).isValid = true →
          namelessRow ∈
            (batchesOf (partitionRows 0 [namelessRow, sampleRow]).1 10).flatten) :=
  ⟨(claim_c3_validator_partition.1 namelessRow).1.mpr rfl,
   (claim_c3_validator_partition.2.2.1 10 (by decide)
      [namelessRow, sampleRow] sampleRow).mpr ⟨by decide, by decide⟩,
   fun h => (claim_c3_validator_partition.2.2.1 10 (by decide)
      [namelessRow, sampleRow] namelessRow).mpr h⟩

/-- **C10.** Every record produced by the normalizer has a canonical
gender and a canonical availability status, so on normalizer output the
validator's gender and availability branches are unreachable: only the
name, product-type and price rules can ever appear in a normalized row's
violation list. -/
theorem claim_c10_normalizer_output_safe (r : RawRow) :
    (normalizeProductRow r).gender ∈ validGenders
    ∧ (normalizeProductRow r).availability_status ∈ validStatuses
    ∧ msgGender ∉ (validateProductRow (normalizeProductRow r)).errors
    ∧ msgAvail ∉ (validateProductRow (normalizeProductRow r)).errors
    ∧ (∀ m ∈ (validateProductRow (normalizeProductRow r)).errors,
        m = msgName ∨ m = msgType ∨ m = msgPrice) := by
  have hg : (normalizeProductRow r).gender ∈ validGenders :=
    normalizeGender_mem _
  have ha : (normalizeProductRow r).availability_status ∈ validStatuses := by
    have h := normalizeAvailabilityStatus_eq_spec
      (firstField r ["availability_status", "availability", "status", "stock"])
    show normalizeAvailabilityStatus _ ∈ validStatuses
    rw [h]
    exact availabilitySpecModel_mem _
  have hspec := validate_errors_spec (normalizeProductRow r)
  have hng : msgGender ∉ (validateProductRow (normalizeProductRow r)).errors := by
    intro hc
    exact (hspec.2.2.2.1.mp hc) hg
  have hna : msgAvail ∉ (validateProductRow (normalizeProductRow r)).errors := by
    intro hc
    exact (hspec.2.2.2.2.1.mp hc) ha
  refine ⟨hg, ha, hng, hna, ?_⟩
  intro m hm
  rcases validate_errors_subset (normalizeProductRow r) m hm with h | h | h | h | h
  · exact Or.inl h
  · exact Or.inr (Or.inl h)
  · exact Or.inr (Or.inr h)
  · exact absurd (h ▸ hm) hng
  · exact absurd (h ▸ hm) hna

theorem claim_c10_normalizer_output_safe_witness :
    (normalizeProductRow []).gender ∈ validGenders
    ∧ (normalizeProductRow []).availability_status ∈ validStatuses
    ∧ msgGender ∉ (validateProductRow (normalizeProductRow [])).errors
    ∧ msgAvail ∉ (validateProductRow (normalizeProductRow [])).errors
    ∧ (msgName = msgName ∨ msgName = msgType ∨ msgName = msgPrice) :=
  ⟨(claim_c10_normalizer_output_safe []).1,
   (claim_c10_normalizer_output_safe []).2.1,
   (claim_c10_normalizer_output_safe []).2.2.1,
   (claim_c10_normalizer_output_safe []).2.2.2.1,
   (claim_c10_normalizer_output_safe []).2.2.2.2 msgName (by decide)⟩

end LyMerch
